import Mathlib

/-!
# Verification of the `safe-js-run` sandboxed JavaScript execution core

This file gives a shallow embedding of `src/lib/safe-js-run.ts`:

* `validateCodeSafety` — the two-pass static safety validator (forbidden
  keyword scan followed by the structural pattern scan).  The JavaScript
  regular expressions are embedded as executable matchers over `List Char`
  with the exact semantics of the source patterns (`\b` word boundaries,
  the `i` flag realised by ASCII case folding, `\s` as the JS whitespace
  class).
* `safeGlobals` — the sandbox environment builder (`createSafeEnvironment`):
  an association list built in the source's spread order, where later
  entries override earlier ones, exactly as JS object spread does.
* `execute` / `safeJsRun` — the bounded executor and the transport wrapper.
  The dynamic behaviour of the user code (which is arbitrary JavaScript and
  cannot itself be embedded) is abstracted as a `CodeRun` oracle: the
  sequence of `console.*` / `setResult` calls the code makes, how it ends
  (returns, throws, or never returns), and how long the synchronous call
  takes.  The `Promise.race` of the source is modelled with explicit
  settlement times, following ECMAScript semantics: the executor function
  passed to `new Promise` runs synchronously, so the execution promise is
  settled (or the constructor never returns) before the timer promise is
  even created.
-/

/-- JS `\w` (and hence `\b`) word characters: `[A-Za-z0-9_]`. -/
def isWordChar (c : Char) : Bool := c.isAlpha || c.isDigit || c == '_'

/-- ASCII case-insensitive character comparison, the canonicalisation the
`i` regex flag performs on ASCII pattern characters. -/
def lowerEq (a b : Char) : Bool := a.toLower == b.toLower

/-- JS `\s` whitespace class. -/
def jsSpace (c : Char) : Bool :=
  c == Char.ofNat 32 || c == '\t' || c == '\n' || c == '\r' ||
  c == Char.ofNat 11 || c == Char.ofNat 12 || c == Char.ofNat 160 ||
  c == Char.ofNat 5760 || (8192 ≤ c.toNat && c.toNat ≤ 8202) ||
  c == Char.ofNat 8232 || c == Char.ofNat 8233 || c == Char.ofNat 8239 ||
  c == Char.ofNat 8287 || c == Char.ofNat 12288 || c == Char.ofNat 65279

/-- The regex character class `['"\x60]` (single quote, double quote, backtick). -/
def quoteChar (c : Char) : Bool :=
  c == Char.ofNat 39 || c == '"' || c == Char.ofNat 96

/-- The regex character class `[a-zA-Z_$]`. -/
def identStartChar (c : Char) : Bool := c.isAlpha || c == '_' || c == '$'

/-- The regex character class `[a-zA-Z0-9_$]`. -/
def identChar (c : Char) : Bool := c.isAlpha || c.isDigit || c == '_' || c == '$'

/-- Case-insensitive prefix check: does `cs` start with (the
case-folded image of) `p`? -/
def ciStarts : List Char → List Char → Bool
  | [], _ => true
  | _ :: _, [] => false
  | p :: ps, c :: cs => lowerEq c p && ciStarts ps cs

/-- `\b` on the right of a keyword made of word characters: the next
character, if any, is not a word character. -/
def boundaryOk : List Char → Bool
  | [] => true
  | c :: _ => !isWordChar c

/-- The regex `\bkw\b` (with the `i` flag) matches at the head of `cs`:
`cs` starts with `kw` case-insensitively and the character after the
match, if any, is not a word character.  (The left boundary is handled
by the scanner below.) -/
def wordAt (kw cs : List Char) : Bool :=
  ciStarts kw cs && boundaryOk (cs.drop kw.length)

/-- Scanner for `new RegExp("\\b" + kw + "\\b", "i").test(code)`:
`prevOk` records whether the previous character (or the start of the
string) provides a left word boundary. -/
def wordTestAux (kw : List Char) : Bool → List Char → Bool
  | _, [] => false
  | prevOk, c :: cs =>
    (prevOk && wordAt kw (c :: cs)) || wordTestAux kw (!isWordChar c) cs

/-- `new RegExp("\\b" + kw + "\\b", "i").test(code)` for a keyword made of
word characters. -/
def wordTest (kw code : String) : Bool :=
  wordTestAux kw.toList true code.toList

/-- A fragment of the regexes used by the validator: a single character
matched by a class/literal predicate, or a star over such a predicate.
Each source pattern is a sequence of these (alternation is handled as a
list of alternative sequences). -/
inductive RTok where
  | ch (p : Char → Bool)
  | star (p : Char → Bool)

/-- Greedy-or-empty star matching: try the continuation `f` at each suffix
reachable by consuming characters satisfying `p`. -/
def starLoop (f : List Char → Bool) (p : Char → Bool) : List Char → Bool
  | [] => f []
  | c :: cs => f (c :: cs) || (p c && starLoop f p cs)

/-- Does some prefix of `cs` match the token sequence `ts`? -/
def matchSeq : List RTok → List Char → Bool
  | [], _ => true
  | .ch p :: ts, cs =>
    match cs with
    | [] => false
    | c :: rest => p c && matchSeq ts rest
  | .star p :: ts, cs => starLoop (matchSeq ts) p cs

/-- Does the token sequence `ts` match starting at some position of `cs`?
This is `regex.test` for a pattern with no anchors. -/
def matchSome (ts : List RTok) : List Char → Bool
  | [] => matchSeq ts []
  | c :: cs => matchSeq ts (c :: cs) || matchSome ts cs

/-- `pattern.test(code)` for a pattern given as a list of alternative
token sequences. -/
def rtest (alts : List (List RTok)) (code : String) : Bool :=
  alts.any (fun ts => matchSome ts code.toList)

/-- A case-insensitive literal character token (for patterns carrying the
`i` flag). -/
def ciTok (c : Char) : RTok := .ch (fun x => lowerEq x c)

/-- An exact literal character token. -/
def exTok (c : Char) : RTok := .ch (fun x => x == c)

/-- A case-insensitive literal string as a token sequence. -/
def ciSeq (s : String) : List RTok := s.toList.map ciTok

/-- The token `\s*`. -/
def wsStar : RTok := .star jsSpace

/-- `FORBIDDEN_KEYWORDS` from the source, in source order. -/
def FORBIDDEN_KEYWORDS : List String :=
  ["window", "document", "globalThis", "self", "parent", "top", "frames",
   "opener", "eval", "constructor", "prototype", "__proto__", "process",
   "require", "module", "exports", "__dirname", "__filename", "global",
   "Worker", "SharedWorker", "ServiceWorker", "MessageChannel", "FileReader",
   "Blob", "File", "FileSystem", "XMLHttpRequest", "WebSocket", "EventSource"]

/-- A `{pattern, message}` entry of the validator's pattern tables. -/
structure PatternRule where
  alts : List (List RTok)
  message : String

/-- `/while\s*\(\s*true\s*\)/gi` -/
def whileTruePat : List RTok :=
  ciSeq "while" ++ [wsStar, exTok '(', wsStar] ++ ciSeq "true" ++ [wsStar, exTok ')']

/-- `/for\s*\(\s*;\s*;\s*\)/gi` -/
def forEmptyPat : List RTok :=
  ciSeq "for" ++ [wsStar, exTok '(', wsStar, exTok ';', wsStar, exTok ';', wsStar, exTok ')']

/-- `/while\s*\(\s*1\s*\)/gi` -/
def while1Pat : List RTok :=
  ciSeq "while" ++ [wsStar, exTok '(', wsStar, exTok '1', wsStar, exTok ')']

/-- `/for\s*\(\s*;\s*true\s*;\s*\)/gi` -/
def forTruePat : List RTok :=
  ciSeq "for" ++ [wsStar, exTok '(', wsStar, exTok ';', wsStar] ++ ciSeq "true" ++
    [wsStar, exTok ';', wsStar, exTok ')']

/-- `/['"\x60]\s*\+\s*['"\x60]/g` -/
def concatPat : List RTok :=
  [.ch quoteChar, wsStar, exTok '+', wsStar, .ch quoteChar]

/-- `/\[['"\x60][a-zA-Z_$][a-zA-Z0-9_$]*['"\x60]\]/g` -/
def bracketPat : List RTok :=
  [exTok '[', .ch quoteChar, .ch identStartChar, .star identChar, .ch quoteChar, exTok ']']

/-- `/eval\s*\(/gi` -/
def evalCallPat : List RTok := ciSeq "eval" ++ [wsStar, exTok '(']

/-- The `new\s+Function\s*\(` alternative of `/(new\s+)?Function\s*\(/gi`. -/
def newFunctionPat : List RTok :=
  ciSeq "new" ++ [.ch jsSpace, wsStar] ++ ciSeq "Function" ++ [wsStar, exTok '(']

/-- The bare `Function\s*\(` alternative of `/(new\s+)?Function\s*\(/gi`
(the optional group left empty). -/
def bareFunctionPat : List RTok := ciSeq "Function" ++ [wsStar, exTok '(']

/-- `/constructor\s*\(/gi` -/
def ctorCallPat : List RTok := ciSeq "constructor" ++ [wsStar, exTok '(']

/-- `/prototype\s*\[/gi` -/
def protoIdxPat : List RTok := ciSeq "prototype" ++ [wsStar, exTok '[']

/-- The `__proto__` alternative of `/(__proto__|\.constructor)/gi`. -/
def protoUnderPat : List RTok := ciSeq "__proto__"

/-- The `\.constructor` alternative of `/(__proto__|\.constructor)/gi`. -/
def dotCtorPat : List RTok := [exTok '.'] ++ ciSeq "constructor"

def whileTrueRule : PatternRule := ⟨[whileTruePat], "Infinite while loop detected"⟩
def forEmptyRule : PatternRule := ⟨[forEmptyPat], "Infinite for loop detected"⟩
def while1Rule : PatternRule := ⟨[while1Pat], "Infinite while loop detected"⟩
def forTrueRule : PatternRule := ⟨[forTruePat], "Infinite for loop detected"⟩

/-- `infiniteLoopPatterns` from the source, in source order. -/
def infiniteLoopPatterns : List PatternRule :=
  [whileTrueRule, forEmptyRule, while1Rule, forTrueRule]

def concatRule : PatternRule := ⟨[concatPat], "String concatenation to access globals"⟩
def bracketRule : PatternRule := ⟨[bracketPat], "Dynamic property access"⟩
def evalCallRule : PatternRule := ⟨[evalCallPat], "Dynamic code evaluation"⟩
def funcCtorRule : PatternRule := ⟨[newFunctionPat, bareFunctionPat], "Function constructor"⟩
def ctorCallRule : PatternRule := ⟨[ctorCallPat], "Constructor access"⟩
def protoIdxRule : PatternRule := ⟨[protoIdxPat], "Prototype manipulation"⟩
def protoChainRule : PatternRule := ⟨[protoUnderPat, dotCtorPat], "Prototype chain access"⟩

/-- `suspiciousPatterns` from the source, in source order. -/
def suspiciousPatterns : List PatternRule :=
  [concatRule, bracketRule, evalCallRule, funcCtorRule, ctorCallRule,
   protoIdxRule, protoChainRule]

/-- The single-quote character, as a string. -/
def quoteStr : String := String.singleton (Char.ofNat 39)

/-- The Pass-1 rejection message for keyword `kw`. -/
def forbiddenMessage (kw : String) : String :=
  "Forbidden keyword: " ++ quoteStr ++ kw ++ quoteStr ++ " - not allowed for security reasons"

/-- `validateCodeSafety` from the source: the forbidden-keyword scan, then
the infinite-loop pattern scan, then the suspicious-pattern scan, each in
source order with the first match short-circuiting; `none` means the code
is accepted. -/
def validateCodeSafety (code : String) : Option String :=
  match FORBIDDEN_KEYWORDS.find? (fun kw => wordTest kw code) with
  | some kw => some (forbiddenMessage kw)
  | none =>
    match infiniteLoopPatterns.find? (fun r => rtest r.alts code) with
    | some r => some ("Dangerous infinite loop pattern: " ++ r.message)
    | none =>
      match suspiciousPatterns.find? (fun r => rtest r.alts code) with
      | some r => some ("Suspicious pattern detected: " ++ r.message)
      | none => none

/-- A JavaScript value, as far as the sandbox's observable behaviour is
concerned (log-call arguments and the `setResult` slot). -/
inductive JsValue where
  | undef
  | null
  | bool (b : Bool)
  | num (n : Int)
  | str (s : String)
deriving DecidableEq

/-- One binding of the `safeGlobals` object: a copied input value, the
`console` capture object, the `setResult` closure, or one of the fixed
allow-listed library objects. -/
inductive Binding where
  | inputVal (v : JsValue)
  | consoleObj
  | setResultFn
  | libObj (name : String)
deriving DecidableEq

/-- The fixed (non-input) part of `safeGlobals`, in source order: the
`console` capture object, `setResult`, the standard library objects and
utility functions, and — only when a `window` global exists — the bound
browser APIs. -/
def sandboxEntries (hasWindow : Bool) : List (String × Binding) :=
  [("console", .consoleObj), ("setResult", .setResultFn),
   ("Math", .libObj "Math"), ("JSON", .libObj "JSON"), ("Date", .libObj "Date"),
   ("Array", .libObj "Array"), ("Object", .libObj "Object"),
   ("String", .libObj "String"), ("Number", .libObj "Number"),
   ("Boolean", .libObj "Boolean"), ("RegExp", .libObj "RegExp"),
   ("Promise", .libObj "Promise"), ("parseInt", .libObj "parseInt"),
   ("parseFloat", .libObj "parseFloat"), ("isNaN", .libObj "isNaN"),
   ("isFinite", .libObj "isFinite"),
   ("encodeURIComponent", .libObj "encodeURIComponent"),
   ("decodeURIComponent", .libObj "decodeURIComponent")] ++
  (if hasWindow then
    [("fetch", .libObj "fetch"), ("setTimeout", .libObj "setTimeout"),
     ("setInterval", .libObj "setInterval"), ("clearTimeout", .libObj "clearTimeout"),
     ("clearInterval", .libObj "clearInterval"), ("btoa", .libObj "btoa"),
     ("atob", .libObj "atob")]
   else [])

/-- The `safeGlobals` object of `createSafeEnvironment`: the input map is
spread first, the sandbox's own entries afterwards.  JS object spread
lets a later entry overwrite an earlier one with the same key, which the
association-list lookup `envLookup` below realises by preferring the
entry closest to the tail. -/
def safeGlobals (input : List (String × JsValue)) (hasWindow : Bool) :
    List (String × Binding) :=
  input.map (fun p => (p.1, Binding.inputVal p.2)) ++ sandboxEntries hasWindow

/-- Property lookup in the object built by spread: the last entry with the
given key wins. -/
def envLookup : List (String × Binding) → String → Option Binding
  | [], _ => none
  | p :: rest, k =>
    match envLookup rest k with
    | some b => some b
    | none => if p.1 == k then some p.2 else none

/-- An observable action the executed code performs against the sandbox:
a `console.*` call (all six methods alias the same capture) or a
`setResult` call. -/
inductive REvent where
  | log (args : List JsValue)
  | setRes (v : JsValue)
deriving DecidableEq

/-- How the synchronous call of the constructed function ends: it returns,
it throws (with the error's message text), or it never returns. -/
inductive RunEnding where
  | normal
  | thrown (msg : String)
  | diverge
deriving DecidableEq

/-- The observable behaviour of one invocation of the user code: its
sandbox events in order, how it ends, and the wall-clock duration of the
synchronous call. -/
structure CodeRun where
  events : List REvent
  ending : RunEnding
  duration : Nat
deriving DecidableEq

/-- One step of the `logs.push(args)` capture. -/
def logStep (acc : List (List JsValue)) (e : REvent) : List (List JsValue) :=
  match e with
  | .log args => acc ++ [args]
  | .setRes _ => acc

/-- The contents of the `logs` array after a run: every `console.*` call
appends its exact argument list. -/
def runLogs (events : List REvent) : List (List JsValue) :=
  events.foldl logStep []

/-- One step of the `__executionResult` mutable slot: a `setResult` call
overwrites it, anything else leaves it. -/
def resStep (acc : Option JsValue) (e : REvent) : Option JsValue :=
  match e with
  | .setRes v => some v
  | .log _ => acc

/-- The value `getResult()` returns after a run: the slot starts unset and
each `setResult` call overwrites it. -/
def lastSet (events : List REvent) : Option JsValue :=
  events.foldl resStep none

/-- The argument list of a capture event, `none` for a `setResult` event. -/
def logArg : REvent → Option (List JsValue)
  | .log args => some args
  | .setRes _ => none

/-- The mirror of the TS `ExecutionResult` record. -/
structure ExecutionResult where
  success : Bool
  result : Option JsValue
  logs : List (List JsValue)
  error : Option String
  executionTime : Nat
deriving DecidableEq

/-- The message of the timer branch of the race. -/
def timeoutMessage (timeout : Nat) : String :=
  "Execution timeout: " ++ toString timeout ++ "ms limit exceeded"

/-- `execute` from the source.  `validationTime` is the wall-clock time the
validator consumes; `runBehavior` gives the behaviour of the user code as
a function of the environment it is invoked with.  The race of the source
is modelled by settlement times: the first `new Promise` runs
`func(...Object.values(safeGlobals))` synchronously inside its executor,
so that promise settles (resolve on return, reject on throw) at
`validationTime + duration`, before the timer promise is created; the
timer promise is created afterwards and rejects `timeout` ms later.
`Promise.race` adopts whichever settles first.  A run that never returns
keeps `execute` from ever producing a result (`none`). -/
def execute (code : String) (input : List (String × JsValue)) (timeout : Nat)
    (hasWindow : Bool) (validationTime : Nat)
    (runBehavior : List (String × Binding) → CodeRun) : Option ExecutionResult :=
  match validateCodeSafety code with
  | some err =>
    some { success := false, result := none, logs := [], error := some err,
           executionTime := validationTime }
  | none =>
    let env := safeGlobals input hasWindow
    let run := runBehavior env
    match run.ending with
    | .diverge => none
    | .normal =>
      if validationTime + run.duration + timeout < validationTime + run.duration then
        some { success := false, result := none, logs := runLogs run.events,
               error := some (timeoutMessage timeout),
               executionTime := validationTime + run.duration + timeout }
      else
        some { success := true, result := lastSet run.events,
               logs := runLogs run.events, error := none,
               executionTime := validationTime + run.duration }
    | .thrown msg =>
      if validationTime + run.duration + timeout < validationTime + run.duration then
        some { success := false, result := none, logs := runLogs run.events,
               error := some (timeoutMessage timeout),
               executionTime := validationTime + run.duration + timeout }
      else
        some { success := false, result := none, logs := runLogs run.events,
               error := some (if msg == "" then "Unknown execution error" else msg),
               executionTime := validationTime + run.duration }

/-- The two external envelopes of the transport wrapper: the success shape
`\x7b success: true, result, logs, executionTime \x7d` and the failure
shape `\x7b isError: true, error, solution \x7d`. -/
inductive Envelope where
  | success (result : Option JsValue) (logs : List (List JsValue)) (executionTime : String)
  | failure (error : String) (solution : String)
deriving DecidableEq

/-- The fixed troubleshooting text of the failure envelope, with the
configured timeout interpolated. -/
def solutionText (timeout : Nat) : String :=
  "JavaScript execution failed. Common issues:\n    • Syntax errors: Check for missing semicolons, brackets, or quotes\n    • Forbidden operations: Avoid DOM access, eval(), or global object manipulation  \n    • Infinite loops: Code execution times out after " ++
  toString timeout ++
  "ms\n    • API errors: Check network connectivity for fetch() calls\n    • Type errors: Verify data types and object properties exist\n    • Reference errors: Make sure all variables and functions are defined\n    • Missing result: Use setResult(value) to return a result from your code\n    \n    Available APIs: Math, JSON, Date, fetch, setTimeout, console.log, setResult\n    Input data properties are available as variables in your code scope.\n    Use setResult(value) to return results instead of relying on last expression."

/-- `safeJsRun` from the source: run `execute`; on `success: false` the
wrapper throws `new Error(result.error || "Code execution failed")`,
which `ifFail` converts into the failure envelope; a successful result
becomes the success envelope with `executionTime` rendered as a string. -/
def safeJsRun (code : String) (input : List (String × JsValue)) (timeout : Nat)
    (hasWindow : Bool) (validationTime : Nat)
    (runBehavior : List (String × Binding) → CodeRun) : Option Envelope :=
  match execute code input timeout hasWindow validationTime runBehavior with
  | none => none
  | some r =>
    if r.success then
      some (.success r.result r.logs (toString r.executionTime ++ "ms"))
    else
      some (.failure
        (match r.error with
         | some e => if e == "" then "Code execution failed" else e
         | none => "Code execution failed")
        (solutionText timeout))

/-- Specification-side predicate: `a` and `b` are equal up to ASCII case
folding (same length, characters pairwise equal after `toLower`). -/
def charsCI (a b : List Char) : Prop :=
  a.map Char.toLower = b.map Char.toLower

/-- Specification-side left word boundary: the character of `pre` adjacent
to the match (its last) is not a word character; for an empty `pre` the
flag `prevOk` (start-of-string, or the scanner's record of the previous
character) must hold. -/
def leftFits : Bool → List Char → Prop
  | prevOk, [] => prevOk = true
  | _, c :: pre => leftFits (!isWordChar c) pre

/-- Specification-side right word boundary: the character of `post`
adjacent to the match (its first) is not a word character. -/
def rightFits (post : List Char) : Prop :=
  ∀ c, post.head? = some c → isWordChar c = false

/-- `kw` occurs in `cs` case-insensitively with a word boundary on both
sides, where `prevOk` tells whether a match at the very start of `cs` is
boundary-correct. -/
def wordOccursFrom (prevOk : Bool) (kw cs : List Char) : Prop :=
  ∃ pre mid post, cs = pre ++ mid ++ post ∧ charsCI mid kw ∧
    leftFits prevOk pre ∧ rightFits post

/-- `kw` occurs in `code` as a whole word (word boundary on both sides),
matched case-insensitively — the specification reading of
`\bkw\b` with the `i` flag matching anywhere in the text. -/
def wordOccurs (kw code : String) : Prop :=
  wordOccursFrom true kw.toList code.toList

/-- The concrete long-running but validation-clean program used for the
timeout analysis. -/
def overtimeCode : String := "let i = 0; while (i < 100000000) i = i + 1;"

/-- A concrete validation-clean program whose loop never terminates. -/
def spinCode : String := "let k = 0; while (k < 1) k = k - 1;"

/-- The benign anonymous-function program of the over-matching analysis. -/
def anonFnCode : String := "const f = function (x) \x7b return x; \x7d;"

/-! ## Correctness of the keyword matcher -/

theorem lowerEq_iff (a b : Char) : lowerEq a b = true ↔ a.toLower = b.toLower := by
  simp [lowerEq]

theorem charsCI_length {a b : List Char} (h : charsCI a b) : a.length = b.length := by
  have := congrArg List.length h
  simpa using this

theorem ciStarts_iff (p : List Char) : ∀ cs, ciStarts p cs = true ↔
    ∃ mid rest, cs = mid ++ rest ∧ charsCI mid p := by
  induction p with
  | nil =>
    intro cs
    constructor
    · intro _
      exact ⟨[], cs, rfl, rfl⟩
    · intro _
      rfl
  | cons a ps ih =>
    intro cs
    cases cs with
    | nil =>
      simp only [ciStarts]
      constructor
      · intro h
        cases h
      · rintro ⟨mid, rest, heq, hci⟩
        obtain ⟨h1, _⟩ := List.append_eq_nil.mp heq.symm
        subst h1
        simp [charsCI] at hci
    | cons c cs =>
      simp only [ciStarts, Bool.and_eq_true]
      constructor
      · rintro ⟨h1, h2⟩
        obtain ⟨mid, rest, heq, hci⟩ := (ih cs).mp h2
        refine ⟨c :: mid, rest, by rw [heq]; rfl, ?_⟩
        show (c :: mid).map Char.toLower = (a :: ps).map Char.toLower
        simp only [List.map_cons]
        rw [(lowerEq_iff c a).mp h1, hci]
      · rintro ⟨mid, rest, heq, hci⟩
        cases mid with
        | nil => simp [charsCI] at hci
        | cons m ms =>
          simp only [List.cons_append, List.cons.injEq] at heq
          obtain ⟨hcm, heq2⟩ := heq
          subst hcm
          simp only [charsCI, List.map_cons, List.cons.injEq] at hci
          obtain ⟨hlow, hci2⟩ := hci
          exact ⟨(lowerEq_iff c a).mpr hlow, (ih cs).mpr ⟨ms, rest, heq2, hci2⟩⟩

theorem rightFits_iff (post : List Char) : boundaryOk post = true ↔ rightFits post := by
  cases post with
  | nil => simp [boundaryOk, rightFits]
  | cons c cs => simp [boundaryOk, rightFits]

theorem wordAt_iff (kw cs : List Char) : wordAt kw cs = true ↔
    ∃ mid post, cs = mid ++ post ∧ charsCI mid kw ∧ rightFits post := by
  simp only [wordAt, Bool.and_eq_true]
  constructor
  · rintro ⟨h1, h2⟩
    obtain ⟨mid, post, heq, hci⟩ := (ciStarts_iff kw cs).mp h1
    have hlen : mid.length = kw.length := charsCI_length hci
    refine ⟨mid, post, heq, hci, ?_⟩
    rw [heq, ← hlen, List.drop_left] at h2
    exact (rightFits_iff post).mp h2
  · rintro ⟨mid, post, heq, hci, hr⟩
    have hlen : mid.length = kw.length := charsCI_length hci
    refine ⟨(ciStarts_iff kw cs).mpr ⟨mid, post, heq, hci⟩, ?_⟩
    rw [heq, ← hlen, List.drop_left]
    exact (rightFits_iff post).mpr hr

theorem wordTestAux_iff (kw : List Char) (hkw : kw ≠ []) :
    ∀ (cs : List Char) (prevOk : Bool),
      wordTestAux kw prevOk cs = true ↔ wordOccursFrom prevOk kw cs := by
  intro cs
  induction cs with
  | nil =>
    intro prevOk
    simp only [wordTestAux]
    constructor
    · intro h
      cases h
    · rintro ⟨pre, mid, post, heq, hci, _, _⟩
      obtain ⟨h1, _⟩ := List.append_eq_nil.mp heq.symm
      obtain ⟨_, h3⟩ := List.append_eq_nil.mp h1
      subst h3
      have : kw = [] := by simpa [charsCI] using hci
      exact (hkw this).elim
  | cons c cs ih =>
    intro prevOk
    simp only [wordTestAux, Bool.or_eq_true, Bool.and_eq_true]
    rw [ih (!isWordChar c)]
    constructor
    · rintro (⟨hp, hat⟩ | hocc)
      · obtain ⟨mid, post, heq, hci, hr⟩ := (wordAt_iff kw (c :: cs)).mp hat
        exact ⟨[], mid, post, by simpa using heq, hci, hp, hr⟩
      · obtain ⟨pre, mid, post, heq, hci, hl, hr⟩ := hocc
        exact ⟨c :: pre, mid, post, by rw [heq]; rfl, hci, hl, hr⟩
    · rintro ⟨pre, mid, post, heq, hci, hl, hr⟩
      cases pre with
      | nil =>
        left
        exact ⟨hl, (wordAt_iff kw (c :: cs)).mpr ⟨mid, post, by simpa using heq, hci, hr⟩⟩
      | cons p pre =>
        right
        simp only [List.cons_append, List.append_assoc, List.cons.injEq] at heq
        obtain ⟨rfl, heq2⟩ := heq
        exact ⟨pre, mid, post, by simpa [List.append_assoc] using heq2, hci, hl, hr⟩

theorem wordTest_iff (kw code : String) (hkw : kw.toList ≠ []) :
    wordTest kw code = true ↔ wordOccurs kw code :=
  wordTestAux_iff kw.toList hkw code.toList true

/-! ## First-match behaviour of `List.find?` -/

theorem find_first {α : Type} (p : α → Bool) :
    ∀ (l : List α) (a : α), l.find? p = some a →
      p a = true ∧ ∃ l₁ l₂, l = l₁ ++ a :: l₂ ∧ ∀ x ∈ l₁, p x = false := by
  intro l
  induction l with
  | nil =>
    intro a h
    simp [List.find?] at h
  | cons b l ih =>
    intro a h
    cases hpb : p b with
    | true =>
      rw [List.find?_cons_of_pos _ hpb] at h
      obtain rfl := Option.some.inj h
      exact ⟨hpb, [], l, rfl, by simp⟩
    | false =>
      rw [List.find?_cons_of_neg _ (by simp [hpb])] at h
      obtain ⟨hp, l₁, l₂, rfl, hall⟩ := ih a h
      refine ⟨hp, b :: l₁, l₂, rfl, ?_⟩
      intro x hx
      rcases List.mem_cons.mp hx with rfl | hx
      · exact hpb
      · exact hall x hx

theorem find_exists {α : Type} (p : α → Bool) :
    ∀ (l : List α), (∃ x ∈ l, p x = true) → ∃ a, l.find? p = some a := by
  intro l
  induction l with
  | nil =>
    intro h
    simp at h
  | cons b l ih =>
    intro h
    cases hpb : p b with
    | true => exact ⟨b, List.find?_cons_of_pos _ hpb⟩
    | false =>
      obtain ⟨x, hx, hpx⟩ := h
      rcases List.mem_cons.mp hx with rfl | hx
      · rw [hpb] at hpx
        cases hpx
      · obtain ⟨a, ha⟩ := ih ⟨x, hx, hpx⟩
        exact ⟨a, by rw [List.find?_cons_of_neg _ (by simp [hpb])]; exact ha⟩

/-! ## The capture log and the result slot -/

theorem foldl_logStep (events : List REvent) :
    ∀ acc, events.foldl logStep acc = acc ++ events.filterMap logArg := by
  induction events with
  | nil =>
    intro acc
    simp
  | cons e es ih =>
    intro acc
    cases e with
    | log args => simp [logStep, logArg, List.filterMap_cons, ih]
    | setRes v => simp [logStep, logArg, List.filterMap_cons, ih]

theorem runLogs_eq (events : List REvent) :
    runLogs events = events.filterMap logArg := by
  simpa using foldl_logStep events []

theorem lastSet_of_no_set : ∀ (events : List REvent),
    (∀ e ∈ events, ∀ v, e ≠ REvent.setRes v) → lastSet events = none := by
  have key : ∀ (events : List REvent),
      (∀ e ∈ events, ∀ v, e ≠ REvent.setRes v) →
      ∀ acc, events.foldl resStep acc = acc := by
    intro events
    induction events with
    | nil =>
      intro _ acc
      rfl
    | cons e es ih =>
      intro h acc
      cases e with
      | log args => exact ih (fun x hx v => h x (List.mem_cons_of_mem _ hx) v) acc
      | setRes v => exact absurd rfl (h _ (List.mem_cons_self _ _) v)
  intro events h
  exact key events h none

/-! ## Lookup in the spread-built environment -/

theorem envLookup_append (xs ys : List (String × Binding)) (k : String) :
    envLookup (xs ++ ys) k =
      match envLookup ys k with
      | some b => some b
      | none => envLookup xs k := by
  induction xs with
  | nil =>
    simp only [List.nil_append, envLookup]
    cases envLookup ys k <;> rfl
  | cons p xs ih =>
    show (match envLookup (xs ++ ys) k with
          | some b => some b
          | none => if p.1 == k then some p.2 else none) =
        match envLookup ys k with
        | some b => some b
        | none =>
          match envLookup xs k with
          | some b => some b
          | none => if p.1 == k then some p.2 else none
    rw [ih]
    cases envLookup ys k <;> cases envLookup xs k <;> rfl

theorem envLookup_mem_isSome : ∀ (l : List (String × Binding)) (k : String) (b : Binding),
    (k, b) ∈ l → (envLookup l k).isSome = true := by
  intro l
  induction l with
  | nil =>
    intro k b h
    cases h
  | cons p l ih =>
    intro k b h
    simp only [envLookup]
    rcases List.mem_cons.mp h with heq | h
    · subst heq
      cases hl : envLookup l k <;> simp [hl]
    · have hs := ih k b h
      cases hl : envLookup l k with
      | none =>
        rw [hl] at hs
        cases hs
      | some c => simp [hl]

/-! ## The claims -/

/-- C1: any code containing a denylisted identifier as a whole word —
matched case-insensitively with a word boundary on both sides, anywhere
in the text, comments and string literals included — is rejected by
`validateCodeSafety` before execution with the message
`Forbidden keyword: '<word>' - not allowed for security reasons` for the
first denylist entry, in the fixed denylist order, that matches. -/
theorem denylist_whole_word_rejection (code : String)
    (h : ∃ kw ∈ FORBIDDEN_KEYWORDS, wordOccurs kw code) :
    ∃ kw, kw ∈ FORBIDDEN_KEYWORDS ∧ wordOccurs kw code ∧
      validateCodeSafety code = some (forbiddenMessage kw) ∧
      ∃ l₁ l₂, FORBIDDEN_KEYWORDS = l₁ ++ kw :: l₂ ∧
        ∀ k ∈ l₁, ¬ wordOccurs k code := by
  have hne : ∀ kw ∈ FORBIDDEN_KEYWORDS, kw.toList ≠ [] := by decide
  obtain ⟨kw, hmem, hocc⟩ := h
  have htest : wordTest kw code = true := (wordTest_iff kw code (hne kw hmem)).mpr hocc
  obtain ⟨kw0, hfind⟩ :=
    find_exists (fun k => wordTest k code) FORBIDDEN_KEYWORDS ⟨kw, hmem, htest⟩
  obtain ⟨hp0, l₁, l₂, hdec, hall⟩ :=
    find_first (fun k => wordTest k code) FORBIDDEN_KEYWORDS kw0 hfind
  have hmem0 : kw0 ∈ FORBIDDEN_KEYWORDS := by
    rw [hdec]
    exact List.mem_append_right _ (List.mem_cons_self _ _)
  refine ⟨kw0, hmem0, (wordTest_iff kw0 code (hne kw0 hmem0)).mp hp0, ?_, l₁, l₂, hdec, ?_⟩
  · unfold validateCodeSafety
    rw [hfind]
  · intro k hk hkocc
    have hmemk : k ∈ FORBIDDEN_KEYWORDS := by
      rw [hdec]
      exact List.mem_append_left _ hk
    have htk : wordTest k code = true := (wordTest_iff k code (hne k hmemk)).mpr hkocc
    rw [hall k hk] at htk
    cases htk

/-- Witness for C1 at the concrete program `window.alert(1)`. -/
theorem denylist_whole_word_rejection_case :
    (∃ kw ∈ FORBIDDEN_KEYWORDS, wordOccurs kw "window.alert(1)") ∧
    ∃ kw, kw ∈ FORBIDDEN_KEYWORDS ∧ wordOccurs kw "window.alert(1)" ∧
      validateCodeSafety "window.alert(1)" = some (forbiddenMessage kw) ∧
      ∃ l₁ l₂, FORBIDDEN_KEYWORDS = l₁ ++ kw :: l₂ ∧
        ∀ k ∈ l₁, ¬ wordOccurs k "window.alert(1)" := by
  have hocc : wordOccurs "window" "window.alert(1)" :=
    (wordTest_iff "window" "window.alert(1)" (by decide)).mp (by decide)
  exact ⟨⟨"window", by decide, hocc⟩,
    denylist_whole_word_rejection _ ⟨"window", by decide, hocc⟩⟩

/-- C2: when the forbidden-identifier scan finds nothing, the structural
pattern scan decides the verdict: the four infinite-loop header patterns
are checked first, in their fixed order (`while(true)`, `for(;;)`,
`while(1)`, `for(;true;)`), the first match being rejected as
`Dangerous infinite loop pattern: <description>` before execution ever
starts (for every run behaviour and every timeout, so never by timing
out); only when none matches are the seven suspicious patterns checked,
in their fixed order (string concatenation, dynamic bracket access,
eval-call, Function-constructor call — whose message identifies the
Function constructor —, constructor call, prototype indexing, prototype
chain access), the first match being rejected as
`Suspicious pattern detected: <description>`; when nothing matches the
code is accepted. -/
theorem pass2_fixed_order (code : String)
    (h1 : ∀ kw ∈ FORBIDDEN_KEYWORDS, wordTest kw code = false) :
    infiniteLoopPatterns.map PatternRule.message =
      ["Infinite while loop detected", "Infinite for loop detected",
       "Infinite while loop detected", "Infinite for loop detected"] ∧
    suspiciousPatterns.map PatternRule.message =
      ["String concatenation to access globals", "Dynamic property access",
       "Dynamic code evaluation", "Function constructor", "Constructor access",
       "Prototype manipulation", "Prototype chain access"] ∧
    (∀ r, infiniteLoopPatterns.find? (fun q => rtest q.alts code) = some r →
      validateCodeSafety code = some ("Dangerous infinite loop pattern: " ++ r.message) ∧
      (∃ l₁ l₂, infiniteLoopPatterns = l₁ ++ r :: l₂ ∧
        ∀ q ∈ l₁, rtest q.alts code = false) ∧
      ∀ input t hw vd run, execute code input t hw vd run =
        some { success := false, result := none, logs := [],
               error := some ("Dangerous infinite loop pattern: " ++ r.message),
               executionTime := vd }) ∧
    ((∀ q ∈ infiniteLoopPatterns, rtest q.alts code = false) →
      ∀ r, suspiciousPatterns.find? (fun q => rtest q.alts code) = some r →
        validateCodeSafety code = some ("Suspicious pattern detected: " ++ r.message) ∧
        ∃ l₁ l₂, suspiciousPatterns = l₁ ++ r :: l₂ ∧
          ∀ q ∈ l₁, rtest q.alts code = false) ∧
    ((∀ q ∈ infiniteLoopPatterns, rtest q.alts code = false) →
      (∀ q ∈ suspiciousPatterns, rtest q.alts code = false) →
      validateCodeSafety code = none) := by
  have hk : FORBIDDEN_KEYWORDS.find? (fun kw => wordTest kw code) = none :=
    List.find?_eq_none.mpr (fun x hx => by simp [h1 x hx])
  refine ⟨rfl, rfl, ?_, ?_, ?_⟩
  · intro r hfind
    have hval : validateCodeSafety code =
        some ("Dangerous infinite loop pattern: " ++ r.message) := by
      simp only [validateCodeSafety, hk, hfind]
    obtain ⟨_, l₁, l₂, hdec, hall⟩ :=
      find_first (fun q => rtest q.alts code) infiniteLoopPatterns r hfind
    refine ⟨hval, ⟨l₁, l₂, hdec, hall⟩, ?_⟩
    intro input t hw vd run
    simp only [execute, hval]
  · intro hloops r hfind
    have hl : infiniteLoopPatterns.find? (fun q => rtest q.alts code) = none :=
      List.find?_eq_none.mpr (fun x hx => by simp [hloops x hx])
    have hval : validateCodeSafety code =
        some ("Suspicious pattern detected: " ++ r.message) := by
      simp only [validateCodeSafety, hk, hl, hfind]
    obtain ⟨_, l₁, l₂, hdec, hall⟩ :=
      find_first (fun q => rtest q.alts code) suspiciousPatterns r hfind
    exact ⟨hval, l₁, l₂, hdec, hall⟩
  · intro hloops hsusp
    have hl : infiniteLoopPatterns.find? (fun q => rtest q.alts code) = none :=
      List.find?_eq_none.mpr (fun x hx => by simp [hloops x hx])
    have hs : suspiciousPatterns.find? (fun q => rtest q.alts code) = none :=
      List.find?_eq_none.mpr (fun x hx => by simp [hsusp x hx])
    simp only [validateCodeSafety, hk, hl, hs]

/-- Witness for C2 at the concrete program `while (true) ;`. -/
theorem pass2_fixed_order_case :
    (∀ kw ∈ FORBIDDEN_KEYWORDS, wordTest kw "while (true) ;" = false) ∧
    validateCodeSafety "while (true) ;" =
      some "Dangerous infinite loop pattern: Infinite while loop detected" ∧
    execute "while (true) ;" [] 5000 false 0 (fun _ => ⟨[], RunEnding.normal, 0⟩) =
      some { success := false, result := none, logs := [],
             error := some "Dangerous infinite loop pattern: Infinite while loop detected",
             executionTime := 0 } := by
  have h1 : ∀ kw ∈ FORBIDDEN_KEYWORDS, wordTest kw "while (true) ;" = false := by decide
  have hfind : infiniteLoopPatterns.find? (fun q => rtest q.alts "while (true) ;") =
      some whileTrueRule := rfl
  obtain ⟨_, _, h3, _, _⟩ := pass2_fixed_order "while (true) ;" h1
  obtain ⟨hval, _, hexec⟩ := h3 whileTrueRule hfind
  exact ⟨h1, hval, hexec [] 5000 false 0 (fun _ => ⟨[], RunEnding.normal, 0⟩)⟩

/-- C3: a request whose code fails validation never reaches the
environment builder or the executor — the outcome is the same for every
run behaviour and input — and that outcome has `success = false`, an
empty log sequence, no result value, and an execution time covering only
the work up to the rejection. -/
theorem rejection_short_circuits (code err : String)
    (input : List (String × JsValue)) (t : Nat) (hw : Bool) (vd : Nat)
    (run : List (String × Binding) → CodeRun)
    (h : validateCodeSafety code = some err) :
    execute code input t hw vd run =
      some { success := false, result := none, logs := [], error := some err,
             executionTime := vd } := by
  simp only [execute, h]

/-- Witness for C3: `eval(1)` is rejected, and even a run behaviour that
would log and take 99 ms leaves the outcome untouched. -/
theorem rejection_short_circuits_case :
    execute "eval(1)" [] 5000 false 3
      (fun _ => ⟨[REvent.log [JsValue.num 1]], RunEnding.normal, 99⟩) =
      some { success := false, result := none, logs := [],
             error := some (forbiddenMessage "eval"), executionTime := 3 } :=
  rejection_short_circuits "eval(1)" (forbiddenMessage "eval") [] 5000 false 3
    (fun _ => ⟨[REvent.log [JsValue.num 1]], RunEnding.normal, 99⟩) (by decide)

/-- C4: with a 1 ms budget, the validation-clean long-running
`overtimeCode` still finishes with `success = true` for every run
duration `d`, even `d` far beyond the budget: the execution promise
settles synchronously before the timer promise is created, so the timer
branch of the race — the timeout outcome the claim describes — is
unreachable. -/
theorem timeout_never_fires (input : List (String × JsValue)) (hw : Bool)
    (vd d : Nat) (events : List REvent) :
    validateCodeSafety overtimeCode = none ∧
    execute overtimeCode input 1 hw vd (fun _ => ⟨events, RunEnding.normal, d⟩) =
      some { success := true, result := lastSet events, logs := runLogs events,
             error := none, executionTime := vd + d } := by
  have hv : validateCodeSafety overtimeCode = none := by decide
  refine ⟨hv, ?_⟩
  simp only [execute, hv]
  rw [if_neg (by omega)]

/-- C5: when validation passes and the code completes normally, the
outcome is `success = true` with `result` the final content of the
result slot and `logs` everything captured; the slot starts unset, each
`setResult` call overwrites it (last write wins), capture calls leave it
alone, and a run that never calls `setResult` leaves the result unset. -/
theorem result_slot_last_write (code : String) (input : List (String × JsValue))
    (t : Nat) (hw : Bool) (vd d : Nat) (events : List REvent)
    (hv : validateCodeSafety code = none) :
    execute code input t hw vd (fun _ => ⟨events, RunEnding.normal, d⟩) =
      some { success := true, result := lastSet events, logs := runLogs events,
             error := none, executionTime := vd + d } ∧
    (∀ ev v, lastSet (ev ++ [REvent.setRes v]) = some v) ∧
    (∀ ev args, lastSet (ev ++ [REvent.log args]) = lastSet ev) ∧
    lastSet [] = none ∧
    ((∀ e ∈ events, ∀ v, e ≠ REvent.setRes v) → lastSet events = none) := by
  refine ⟨?_, ?_, ?_, rfl, lastSet_of_no_set events⟩
  · simp only [execute, hv]
    rw [if_neg (by omega)]
  · intro ev v
    simp [lastSet, List.foldl_append, resStep]
  · intro ev args
    simp [lastSet, List.foldl_append, resStep]

/-- Witness for C5: two `setResult` calls in one run — the last write
wins and becomes the outcome's result. -/
theorem result_slot_last_write_case :
    execute "setResult(42)" [] 5000 false 0
      (fun _ => ⟨[REvent.setRes (JsValue.num 1), REvent.setRes (JsValue.num 2)],
                 RunEnding.normal, 4⟩) =
      some { success := true, result := some (JsValue.num 2), logs := [],
             error := none, executionTime := 4 } := by
  have h := (result_slot_last_write "setResult(42)" [] 5000 false 0 4
      [REvent.setRes (JsValue.num 1), REvent.setRes (JsValue.num 2)] (by decide)).1
  exact h.trans (by decide)

/-- C6: every input key is directly addressable in the constructed
environment under its own name, and the sandbox's own bindings take
precedence because they are merged after the input spread: a lookup the
fixed sandbox entry set answers is answered identically in the full
environment, a key outside the sandbox names is answered from the input
copies, and every input pair leaves its key addressable. -/
theorem sandbox_precedence (input : List (String × JsValue)) (hw : Bool) (k : String) :
    (∀ b, envLookup (sandboxEntries hw) k = some b →
      envLookup (safeGlobals input hw) k = some b) ∧
    (envLookup (sandboxEntries hw) k = none →
      envLookup (safeGlobals input hw) k =
        envLookup (input.map (fun p => (p.1, Binding.inputVal p.2))) k) ∧
    (∀ v, (k, v) ∈ input → (envLookup (safeGlobals input hw) k).isSome = true) := by
  have happ := envLookup_append (input.map (fun p => (p.1, Binding.inputVal p.2)))
    (sandboxEntries hw) k
  refine ⟨?_, ?_, ?_⟩
  · intro b hb
    unfold safeGlobals
    rw [happ, hb]
  · intro hb
    unfold safeGlobals
    rw [happ, hb]
  · intro v hv
    have hmem : (k, Binding.inputVal v) ∈ input.map (fun p => (p.1, Binding.inputVal p.2)) :=
      List.mem_map.mpr ⟨(k, v), hv, rfl⟩
    unfold safeGlobals
    rw [happ]
    cases hs : envLookup (sandboxEntries hw) k with
    | some b => rfl
    | none => simpa using envLookup_mem_isSome _ k (Binding.inputVal v) hmem

/-- Witness for C6: an input entry named `console` cannot shadow the
capture binding, while an ordinary input key stays addressable. -/
theorem sandbox_precedence_case :
    envLookup (safeGlobals [("console", JsValue.num 1), ("x", JsValue.num 10)] false)
      "console" = some Binding.consoleObj ∧
    (envLookup (safeGlobals [("console", JsValue.num 1), ("x", JsValue.num 10)] false)
      "x").isSome = true := by
  constructor
  · exact (sandbox_precedence [("console", JsValue.num 1), ("x", JsValue.num 10)] false
      "console").1 Binding.consoleObj (by decide)
  · exact (sandbox_precedence [("console", JsValue.num 1), ("x", JsValue.num 10)] false
      "x").2.2 (JsValue.num 10) (by decide)

/-- C7: the logs of every produced outcome are exactly the argument lists
of the capture calls in invocation order — `runLogs` is the
order-preserving projection of the event trace, with no coercion,
truncation, reordering or merging — and both the normal and the throwing
ending surface it unchanged. -/
theorem logs_exact_order (code : String) (input : List (String × JsValue))
    (t : Nat) (hw : Bool) (vd d : Nat) (events : List REvent) (msg : String)
    (hv : validateCodeSafety code = none) :
    runLogs events = events.filterMap logArg ∧
    (∀ r, execute code input t hw vd (fun _ => ⟨events, RunEnding.normal, d⟩) = some r →
      r.logs = events.filterMap logArg) ∧
    (∀ r, execute code input t hw vd (fun _ => ⟨events, RunEnding.thrown msg, d⟩) = some r →
      r.logs = events.filterMap logArg) := by
  refine ⟨runLogs_eq events, ?_, ?_⟩
  · intro r hr
    simp only [execute, hv] at hr
    rw [if_neg (by omega)] at hr
    obtain rfl := Option.some.inj hr
    simpa using runLogs_eq events
  · intro r hr
    simp only [execute, hv] at hr
    rw [if_neg (by omega)] at hr
    obtain rfl := Option.some.inj hr
    simpa using runLogs_eq events

/-- Witness for C7 on a three-event trace: the two capture calls appear
in order with their exact argument lists; the `setResult` call between
them adds nothing. -/
theorem logs_exact_order_case :
    runLogs [REvent.log [JsValue.num 1], REvent.setRes (JsValue.num 5),
             REvent.log [JsValue.str "a", JsValue.bool true]] =
      [[JsValue.num 1], [JsValue.str "a", JsValue.bool true]] := by
  have h := (logs_exact_order "console.log(1)" [] 5000 false 0 3
      [REvent.log [JsValue.num 1], REvent.setRes (JsValue.num 5),
       REvent.log [JsValue.str "a", JsValue.bool true]] "" (by decide)).1
  exact h.trans (by decide)

/-- C8 (amended): for every request whose execution settles — every
validation rejection, every normal completion and every thrown error —
the transport wrapper returns exactly one of the two envelopes: the
success shape with result, logs and the rendered execution-time string,
or the failure shape with an error message and the fixed troubleshooting
text; no fault escapes the wrapper. -/
theorem envelope_total_on_settle (code : String) (input : List (String × JsValue))
    (t : Nat) (hw : Bool) (vd : Nat) (run : List (String × Binding) → CodeRun)
    (r : ExecutionResult) (h : execute code input t hw vd run = some r) :
    ∃ env, safeJsRun code input t hw vd run = some env ∧
      ((r.success = true ∧
        env = Envelope.success r.result r.logs (toString r.executionTime ++ "ms")) ∨
       (r.success = false ∧ ∃ m, env = Envelope.failure m (solutionText t))) := by
  cases hs : r.success with
  | true =>
    refine ⟨Envelope.success r.result r.logs (toString r.executionTime ++ "ms"),
      ?_, Or.inl ⟨rfl, rfl⟩⟩
    simp [safeJsRun, h, hs]
  | false =>
    refine ⟨Envelope.failure
      (match r.error with
       | some e => if e == "" then "Code execution failed" else e
       | none => "Code execution failed") (solutionText t),
      ?_, Or.inr ⟨rfl, ⟨_, rfl⟩⟩⟩
    simp [safeJsRun, h, hs]

/-- Witness for C8 at a settling request: a normal run with one capture
call produces the success envelope with the rendered execution time. -/
theorem envelope_total_on_settle_case :
    safeJsRun "setResult(x)" [] 5000 false 2
      (fun _ => ⟨[REvent.log [JsValue.str "hi"]], RunEnding.normal, 3⟩) =
      some (Envelope.success none [[JsValue.str "hi"]] "5ms") := by
  obtain ⟨env, henv, hcase⟩ := envelope_total_on_settle "setResult(x)" [] 5000 false 2
      (fun _ => ⟨[REvent.log [JsValue.str "hi"]], RunEnding.normal, 3⟩)
      { success := true, result := none, logs := [[JsValue.str "hi"]],
        error := none, executionTime := 5 } (by decide)
  rcases hcase with ⟨_, rfl⟩ | ⟨hfalse, _⟩
  · exact henv.trans (by decide)
  · exact absurd hfalse (by decide)

/-- C8 counterexample: `spinCode` passes validation, yet a run of it that
never returns leaves the transport wrapper without any envelope, so the
wrapper does not return one of the two envelopes for every request. -/
theorem diverging_request_no_envelope :
    validateCodeSafety spinCode = none ∧
    safeJsRun spinCode [] 5000 false 0 (fun _ => ⟨[], RunEnding.diverge, 0⟩) = none :=
  ⟨by decide, by decide⟩

/-- C10: the benign program `const f = function (x) \x7b return x; \x7d;`
contains no denylisted identifier as a whole word and matches no
infinite-loop pattern, yet validation rejects it as a Function
constructor: the `(new\s+)?Function\s*\(` pattern is case-insensitive
and carries no word boundary, so the keyword `function` followed by
optional whitespace and `(` matches it. -/
theorem function_keyword_overmatch :
    (∀ kw ∈ FORBIDDEN_KEYWORDS, wordTest kw anonFnCode = false) ∧
    (∀ q ∈ infiniteLoopPatterns, rtest q.alts anonFnCode = false) ∧
    rtest funcCtorRule.alts anonFnCode = true ∧
    validateCodeSafety anonFnCode =
      some "Suspicious pattern detected: Function constructor" :=
  ⟨by decide, by decide, by decide, by decide⟩
